import Mathlib

/-!
Verification of the chariot build orchestrator (elysium-os/chariot) against its
natural-language specification.  The C sources under src/src are shallowly
embedded below: strings are byte lists, C enums become inductive types,
fallible external actions (container execs, downloads, filesystem operations)
are driven by explicit oracles, and the recursive walks of main.c are modelled
with an explicit fuel parameter.
-/

namespace Chariot

/-- C enum lib_status_t from src/lib.h lines 17-20:
LIB_STATUS_FAIL has value 0 and LIB_STATUS_OK has value 1. -/
inductive LibStatus where
  | fail
  | ok
deriving DecidableEq

/-- The integer value of a lib_status_t enumerator (C gives FAIL = 0, OK = 1). -/
def LibStatus.toInt : LibStatus → Int
  | .fail => 0
  | .ok => 1

/-- Models a C comparison `status < 0` applied to a lib_status_t value,
as written in main.c line 184, line 607 and line 641. -/
def statusLtZero (s : LibStatus) : Bool := decide (s.toInt < 0)

/-- Models the C macro LIB_OK(STATUS), i.e. STATUS == LIB_STATUS_OK. -/
def libOk (s : LibStatus) : Bool := s = LibStatus.ok

/-- C strings are byte arrays; we embed them as lists of byte values. -/
abbrev Bytes := List Nat

/-- Byte view of a Lean string literal (ASCII input only in this file). -/
def strBytes (s : String) : Bytes := s.data.map (fun c => c.toNat)

/-! ## Variable embedder (main.c lines 41-107, embed_variables) -/

/-- ASCII tolower on a byte, as used by strncasecmp. -/
def lowerByte (b : Nat) : Nat := if 65 ≤ b ∧ b ≤ 90 then b + 32 else b

/-- Case-insensitive byte comparison of two names.  main.c lines 63-64 first
require the lengths to be equal and then compare with strncasecmp; equality of
the lowercased lists captures exactly that. -/
def caseEq (a b : Bytes) : Bool := a.map lowerByte == b.map lowerByte

/-- First variable whose name matches case-insensitively (main.c lines 62-67:
the scan breaks at the first hit). -/
def lookupVar (vs : List (Bytes × Bytes)) (nm : Bytes) : Option Bytes :=
  (vs.find? (fun v => caseEq v.1 nm)).map (fun v => v.2)

/-- Result of embed_variables: `ok` is a returned string, `err` models the
NULL return after the "unknown embed" diagnostic (main.c lines 84-86), and
`fuelout` only signals model fuel exhaustion (the C loop has no such case). -/
inductive EmbedRes where
  | ok (s : Bytes)
  | err
  | fuelout
deriving DecidableEq

/-- Scanner state of embed_variables: the mutable string, the loop index `i`,
the `embed` flag and `embed_start` (main.c lines 42-46). -/
structure EmbedSt where
  str : Bytes
  i : Nat
  emb : Bool
  estart : Nat

/-- One-to-one embedding of the scanning loop of embed_variables
(main.c lines 47-104).  Byte 41 is a closing parenthesis, 63 a question mark,
64 an at sign and 40 an opening parenthesis.  Out-of-range reads model the C
string NUL terminator as byte 0.  User variables are looked up after the
built-ins and overwrite their result (lines 62-73), so a user hit wins.
Note the `elen == 3` branch (line 56): the C code `continue`s without
resetting `embed`, and the model reproduces that faithfully. -/
def embedLoop (vars uvars : List (Bytes × Bytes)) : Nat → EmbedSt → EmbedRes
  | 0, _ => .fuelout
  | fuel+1, st =>
    if st.i < st.str.length then
      let c := st.str.getD st.i 0
      if st.emb then
        if c == 41 then
          let elen := st.i - st.estart + 1
          if elen == 3 then
            embedLoop vars uvars fuel { st with i := st.i + 1 }
          else
            let opt := (st.str.getD (st.i - 1) 0) == 63
            let off := if opt then 4 else 3
            let nm := (st.str.drop (st.estart + 2)).take (elen - off)
            match (lookupVar uvars nm).orElse (fun _ => lookupVar vars nm) with
            | some v =>
                embedLoop vars uvars fuel
                  { st with
                    str := st.str.take st.estart ++ v ++ st.str.drop (st.estart + elen),
                    i := st.i + 1, emb := false }
            | none =>
                if opt then
                  embedLoop vars uvars fuel
                    { st with
                      str := st.str.take st.estart ++ st.str.drop (st.estart + elen),
                      i := st.i + 1, emb := false }
                else .err
        else embedLoop vars uvars fuel { st with i := st.i + 1 }
      else
        if c == 64 then
          if (st.str.getD (st.i + 1) 0) == 40 then
            embedLoop vars uvars fuel { st with estart := st.i, i := st.i + 2, emb := true }
          else
            embedLoop vars uvars fuel { st with estart := st.i, i := st.i + 2 }
        else embedLoop vars uvars fuel { st with i := st.i + 1 }
    else .ok st.str

/-- embed_variables(original, variables, user_variables) with explicit fuel;
the C loop starts with i = 0 and embed = false (main.c lines 42-47). -/
def embed_variables (fuel : Nat) (original : Bytes)
    (vars uvars : List (Bytes × Bytes)) : EmbedRes :=
  embedLoop vars uvars fuel { str := original, i := 0, emb := false, estart := 0 }

/-! ## CLI parameters and the build-stage variable table (main.c) -/

/-- The fields of params_t (main.c lines 26-39) that the claims mention. -/
structure Params where
  thread_count : Nat
  user_vars : List (Bytes × Bytes)

/-- Defaults from main.c lines 515-525 (thread_count starts at 32). -/
def default_params : Params := { thread_count := 32, user_vars := [] }

/-- Handling of the `--thread-count N` option (main.c lines 550-556): the
parsed value is stored into params.thread_count and nothing else. -/
def parse_thread_count_opt (n : Nat) (p : Params) : Params :=
  { p with thread_count := n }

/-- The embed-variable table of the `build` stage, copied from the stages
array in process_recipe (main.c lines 464-472).  The value of thread_count is
the string literal "8" there; params.thread_count is not consulted anywhere in
process_recipe.  The last entry is dropped when the recipe has no linked
source, exactly as the C code drops it via the variable count. -/
def build_stage_vars (pfx : Bytes) (src_present : Bool) : List (Bytes × Bytes) :=
  ([(strBytes "prefix", pfx),
    (strBytes "sysroot_dir", strBytes "/chariot/sysroot"),
    (strBytes "sources_dir", strBytes "/chariot/sources"),
    (strBytes "cache_dir", strBytes "/chariot/cache"),
    (strBytes "build_dir", strBytes "/chariot/build"),
    (strBytes "thread_count", strBytes "8"),
    (strBytes "source_dir", strBytes "/chariot/source")]).take
      (if src_present then 7 else 6)

/-- The embedder invocation for a host-recipe build command
(main.c line 487 with the table of lines 464-472): process_recipe receives
`p : Params` but the stage table never reads p.thread_count. -/
def build_stage_embed (fuel : Nat) (p : Params) (cmd : Bytes) : EmbedRes :=
  embed_variables fuel cmd (build_stage_vars (strBytes "/usr/local") true) p.user_vars

/-! ## Base-image installation and the guard in main (C8) -/

/-- install_rootfs (main.c lines 109-147): the path creation, the bootstrap
download via system(), and the sequence of container shell steps must all
succeed, otherwise LIB_STATUS_FAIL is returned. -/
def install_rootfs (make_ok download_ok : Bool) (shell_steps : List Bool) : LibStatus :=
  if !make_ok then .fail
  else if !download_ok then .fail
  else if shell_steps.all (fun b => b) then .ok else .fail

/-- The guard of main.c lines 607-610: main returns EXIT_FAILURE only when the
rootfs is absent and `install_rootfs(...) < 0`; otherwise it falls through to
the forced-recipe processing loop.  The result is true when main proceeds to
process recipes. -/
def main_proceeds_to_recipes (rootfs_present : Bool) (inst : LibStatus) : Bool :=
  !(!rootfs_present && statusLtZero inst)

/-- Sample variable table binding name "a" to value "val". -/
def varsA : List (Bytes × Bytes) := [(strBytes "a", strBytes "val")]

/-- strcmp(a,b) <= 0 as a boolean on byte lists (C strings hold no NUL byte,
and a strict prefix compares below its extensions, as with strcmp). -/
def leB : Bytes → Bytes → Bool
  | [], _ => true
  | _ :: _, [] => false
  | a :: as, b :: bs => if a < b then true else if b < a then false else leB as bs

def leP (a b : Bytes) : Prop := leB a b = true

instance : DecidableRel leP := fun _ _ => instDecidableEqBool _ _

def leB_cons (a b : Nat) (as bs : Bytes) :
    leB (a :: as) (b :: bs)
      = if a < b then true else if b < a then false else leB as bs := rfl

def leB_cons_iff {a b : Nat} {as bs : Bytes} :
    leB (a :: as) (b :: bs) = true ↔ a < b ∨ (a = b ∧ leB as bs = true) := by
  rw [leB_cons]
  rcases Nat.lt_trichotomy a b with h | h | h
  · rw [if_pos h]
    simp [h]
  · subst h
    rw [if_neg (Nat.lt_irrefl a), if_neg (Nat.lt_irrefl a)]
    simp
  · rw [if_neg (Nat.lt_asymm h), if_pos h]
    constructor
    · intro hh; exact absurd hh (by simp)
    · rintro (h1 | ⟨h1, h2⟩)
      · exact absurd h1 (Nat.lt_asymm h)
      · omega

def leB_total : ∀ a b : Bytes, leB a b = true ∨ leB b a = true
  | [], _ => Or.inl rfl
  | _ :: _, [] => Or.inr rfl
  | a :: as, b :: bs => by
    rcases Nat.lt_trichotomy a b with h | h | h
    · exact Or.inl (leB_cons_iff.mpr (Or.inl h))
    · subst h
      rcases leB_total as bs with ih | ih
      · exact Or.inl (leB_cons_iff.mpr (Or.inr ⟨rfl, ih⟩))
      · exact Or.inr (leB_cons_iff.mpr (Or.inr ⟨rfl, ih⟩))
    · exact Or.inr (leB_cons_iff.mpr (Or.inl h))

def leB_trans : ∀ a b c : Bytes, leB a b = true → leB b c = true → leB a c = true
  | [], _, _ => fun _ _ => rfl
  | _ :: _, [], _ => fun h _ => by simp [leB] at h
  | _ :: _, _ :: _, [] => fun _ h => by simp [leB] at h
  | a :: as, b :: bs, c :: cs => fun h1 h2 => by
    rcases leB_cons_iff.mp h1 with g1 | ⟨g1, g1'⟩ <;>
      rcases leB_cons_iff.mp h2 with g2 | ⟨g2, g2'⟩
    · exact leB_cons_iff.mpr (Or.inl (Nat.lt_trans g1 g2))
    · exact leB_cons_iff.mpr (Or.inl (g2 ▸ g1))
    · exact leB_cons_iff.mpr (Or.inl (g1 ▸ g2))
    · exact leB_cons_iff.mpr (Or.inr ⟨g1.trans g2, leB_trans as bs cs g1' g2'⟩)

def leB_antisymm : ∀ a b : Bytes, leB a b = true → leB b a = true → a = b
  | [], [] => fun _ _ => rfl
  | [], _ :: _ => fun _ h => by simp [leB] at h
  | _ :: _, [] => fun h _ => by simp [leB] at h
  | a :: as, b :: bs => fun h1 h2 => by
    rcases leB_cons_iff.mp h1 with g1 | ⟨g1, g1'⟩ <;>
      rcases leB_cons_iff.mp h2 with g2 | ⟨g2, g2'⟩
    · exact absurd g2 (Nat.lt_asymm g1)
    · omega
    · omega
    · rw [g1, leB_antisymm as bs g1' g2']

instance : IsTotal Bytes leP := ⟨leB_total⟩
instance : IsTrans Bytes leP := ⟨leB_trans⟩
instance : IsAntisymm Bytes leP := ⟨leB_antisymm⟩

/-- Modelled from the spec: lib_path_join (declared in src/lib.h; its
definition is in lib.c, which is not part of src/).  Spec section 4.A:
"variadic path join that concatenates components with exactly one / between
them" (47 is the slash byte). -/
def lib_path_join (a b : Bytes) : Bytes := a ++ 47 :: b

def chainPath (base : Bytes) (ps : List Bytes) : Bytes := ps.foldl lib_path_join base

/-- Image-dependency accumulation of install_deps (main.c lines 187-195):
append each name that is not already present. -/
def collectImgs (acc : List Bytes) (P : List Bytes) : List Bytes :=
  P.foldl (fun a x => if x ∈ a then a else a ++ [x]) acc

/-- Spec-side deduplication keeping the first occurrence of each name. -/
def dedupFirst : List Bytes → List Bytes
  | [] => []
  | x :: xs => x :: (dedupFirst xs).filter (fun y => y ≠ x)

/-- The spec formula's slash-joined list. -/
def joinWithSlash : List Bytes → Bytes
  | [] => []
  | [x] => x
  | x :: y :: ys => x ++ 47 :: joinWithSlash (y :: ys)

/-- setup_recipe_state path computation (main.c lines 212-245): sort the
collected image-dependency names with strcmp (qsort over a total order on
pairwise-distinct entries is order-determined, so insertion sort models it)
and join each onto the sets path in order. -/
def image_path (sets_path : Bytes) (P : List Bytes) : Bytes :=
  chainPath sets_path (List.insertionSort leP (collectImgs [] P))

/-- Concrete inputs instantiating C2. -/
def base0 : Bytes := strBytes "/cache/sets"

def imgP0 : List Bytes := [strBytes "make", strBytes "bison", strBytes "make"]

def imgQ0 : List Bytes := [strBytes "bison", strBytes "make"]

/-! ## Dependency staging: install_deps (main.c lines 153-200) -/

/-- A resolved dependency entry as install_deps sees it (main.c line 160):
after config_read the resolved handle is non-null (asserted at main.c line
254), so it is a plain index into the recipe set. -/
structure SDep where
  runtime : Bool
  resolved : Nat
deriving DecidableEq

structure SRecipe where
  dependencies : List SDep
  image_deps : List (Bytes × Bool)

abbrev SGraph := Nat → SRecipe

/-- Walk state of install_deps: the installed list (recipe_list_t), the
image-dependency accumulator threaded by pointer from setup_recipe_state, and
a log of staging events (parent recipe, staged dependency, copy success). -/
structure ISt where
  inst : List Nat
  imgs : List Bytes
  evs : List (Nat × Nat × Bool)
deriving DecidableEq

def istInit : ISt := { inst := [], imgs := [], evs := [] }

/-- The image-dependency accumulation at the end of an install_deps frame
(main.c lines 187-195): runtime filtering, then dedup-append. -/
def addImgsList (runtime : Bool) (imgs : List Bytes) (l : List (Bytes × Bool)) : List Bytes :=
  l.foldl (fun a x => if runtime && !x.2 then a else if x.1 ∈ a then a else a ++ [x.1]) imgs

def addImgs (runtime : Bool) (st : ISt) (l : List (Bytes × Bool)) : ISt :=
  { st with imgs := addImgsList runtime st.imgs l }

/-- The dependency loop of install_deps (main.c lines 157-185), abstracted
over the recursive call `stepf`.  Per entry: skip non-runtime deps when the
walk is a runtime descent (line 158); skip already-installed deps (line 161);
otherwise stage the dependency (the copy into the deps directories, whose
success the `copy` oracle decides, logged as an event); a failed copy fails
the frame (goto error, line 180); a staged dependency is added to the
installed list (line 183) and recursed into with runtime = true, the
recursive status being compared with `< 0` exactly as line 184 does. -/
def depLoop (copy : Nat → Bool) (stepf : ISt → Nat → ISt × LibStatus)
    (r : Nat) (runtime : Bool) : ISt → List SDep → ISt × LibStatus
  | st, [] => (st, .ok)
  | st, d :: ds =>
    if runtime && !d.runtime then depLoop copy stepf r runtime st ds
    else if d.resolved ∈ st.inst then depLoop copy stepf r runtime st ds
    else if copy d.resolved then
      let p := stepf { st with evs := st.evs ++ [(r, d.resolved, true)],
                               inst := st.inst ++ [d.resolved] } d.resolved
      if statusLtZero p.2 then (p.1, .fail)
      else depLoop copy stepf r runtime p.1 ds
    else ({ st with evs := st.evs ++ [(r, d.resolved, false)] }, .fail)

/-- install_deps (main.c lines 153-200) with explicit fuel: run the
dependency loop, then accumulate this frame's image dependencies and return
LIB_STATUS_OK.  The C walk terminates because the installed list grows on
every descent; fuel only serves Lean's termination checker. -/
def install_deps : Nat → SGraph → (Nat → Bool) → Nat → Bool → ISt → ISt × LibStatus
  | 0, _, _, _, _, st => (st, .fail)
  | f+1, g, copy, r, runtime, st =>
    let p := depLoop copy (fun s d => install_deps f g copy d true s) r runtime st
        (g r).dependencies
    match p.2 with
    | .fail => (p.1, .fail)
    | .ok => (addImgs runtime p.1 (g r).image_deps, .ok)

/-- The dependencies successfully staged in an event list. -/
def succNew (evs : List (Nat × Nat × Bool)) : List Nat :=
  evs.filterMap (fun e => if e.2.2 then some e.2.1 else none)

/-- Walk extension invariant: the final state extends the initial one by a
batch of new staging events whose successfully staged dependencies are fresh,
pairwise distinct, and appended to the installed list in order. -/
def Ext (st st' : ISt) (new : List (Nat × Nat × Bool)) : Prop :=
  st'.evs = st.evs ++ new ∧ st'.inst = st.inst ++ succNew new ∧
    (∀ c ∈ succNew new, c ∉ st.inst) ∧ (succNew new).Nodup

/-- A staging event is legitimate for a walk rooted at `root`: its target is
a resolved dependency of its parent, and either the parent is the root (whose
frame runs with runtime = false) or the staged entry is a runtime dependency
of its parent. -/
def evOk (g : SGraph) (root : Nat) (e : Nat × Nat × Bool) : Prop :=
  (∃ d ∈ (g e.1).dependencies, d.resolved = e.2.1) ∧
    (e.1 = root ∨ ∃ d ∈ (g e.1).dependencies, d.resolved = e.2.1 ∧ d.runtime = true)

/-- Concrete staging graphs instantiating C5 and C10. -/
def gA : SGraph := fun n =>
  if n = 0 then { dependencies := [{ runtime := false, resolved := 1 }], image_deps := [] }
  else if n = 1 then { dependencies := [{ runtime := true, resolved := 2 }], image_deps := [] }
  else { dependencies := [], image_deps := [] }

def copyA : Nat → Bool := fun n => n != 2

def gB : SGraph := fun n =>
  if n = 0 then { dependencies := [{ runtime := false, resolved := 1 }], image_deps := [] }
  else { dependencies := [], image_deps := [] }

def copyT : Nat → Bool := fun _ => true

def copyB : Nat → Bool := fun _ => false

/-! ## Build orchestrator: process_recipe (main.c lines 249-508)

The environment is abstracted as follows: recipes are indices into an OGraph
giving each recipe its resolved source reference, resolved dependency indices
and a number of fallible stage steps (strap for source recipes; the directory
cleanups, embeds and configure/build/install commands for host/target ones).
The mutable world is an OState: per-recipe status bits, per-recipe cache
directory existence, and an oracle stream deciding the outcome of every
external action in program order.  The log records executed stage steps as
(recipe, step index) pairs. -/

/-- status bits of recipe_t.status (built / failed / invalidated). -/
structure RStatus where
  built : Bool
  failed : Bool
  invalidated : Bool
deriving DecidableEq

structure ORecipe where
  srcDep : Option Nat
  deps : List Nat
  stages : Nat

abbrev OGraph := Nat → ORecipe

/-- The world state of a run: per-recipe status, per-recipe cache directory
existence, and the external-outcome oracle with its read position. -/
structure OState where
  rstatus : Nat → RStatus
  dirEx : Nat → Bool
  oracle : Nat → Bool
  pos : Nat

abbrev OLog := List (Nat × Nat)

def updStatus (f : Nat → RStatus) (i : Nat) (v : RStatus) : Nat → RStatus :=
  fun n => if n = i then v else f n

def updB (f : Nat → Bool) (i : Nat) (v : Bool) : Nat → Bool :=
  fun n => if n = i then v else f n

def bump (s : OState) : OState := { s with pos := s.pos + 1 }

def setBuilt (q : RStatus) : RStatus := { q with built := true }

def setFailed (q : RStatus) : RStatus := { q with failed := true }

def markBuilt (s : OState) (r : Nat) : OState :=
  { s with rstatus := updStatus s.rstatus r (setBuilt (s.rstatus r)),
           dirEx := updB s.dirEx r true }

/-- The terminate path of process_recipe (main.c lines 503-507): set
status.failed and attempt lib_path_delete(recipe_dir); `delOk` is the
outcome of that delete.  When the delete succeeds the recipe directory is
gone; when it fails the code only emits the "failed to cleanup broken build,
please do so manually" warning and the directory stays as it was. -/
def markFailed (s : OState) (r : Nat) (delOk : Bool) : OState :=
  { s with rstatus := updStatus s.rstatus r (setFailed (s.rstatus r)),
           dirEx := if delOk then updB s.dirEx r false else s.dirEx,
           pos := s.pos + 1 }

/-- The stage steps of one recipe (main.c lines 289-497): fallible actions
run in order, each consuming one oracle outcome and logged as (r, k); the
first failure aborts the phase (goto terminate). -/
def stagesGo (r : Nat) : Nat → Nat → OState → OState × LibStatus × OLog
  | 0, _, s => (s, .ok, [])
  | n+1, k, s =>
    if s.oracle s.pos then
      match stagesGo r n (k+1) (bump s) with
      | (s1, st, l) => (s1, st, (r, k) :: l)
    else (bump s, .fail, [(r, k)])

/-- The stage-execution part of process_recipe starting at the namespace
switch (main.c line 289): on success fall through to line 500, setting
status.built and leaving the populated recipe directory in place; on failure
take the terminate path (lines 503-507), setting status.failed and attempting
to delete the recipe directory, the delete outcome being the next oracle
value. -/
def runStages (g : OGraph) (s : OState) (r : Nat) : OState × LibStatus × OLog :=
  match stagesGo r ((g r).stages) 0 s with
  | (s1, LibStatus.ok, l) => (markBuilt s1 r, .ok, l)
  | (s1, LibStatus.fail, l) => (markFailed s1 r (s1.oracle s1.pos), .fail, l)

/-- The skip guard of main.c line 261: built or failed, or the recipe
directory exists and the recipe is not invalidated. -/
def stableB (s : OState) (r : Nat) : Bool :=
  (s.rstatus r).built || (s.rstatus r).failed || (s.dirEx r && !(s.rstatus r).invalidated)

/-- The dependency recursion loop (main.c lines 253-256): process each
resolved dependency, aborting on the first failure. -/
def runSeq (step : OState → Nat → OState × LibStatus × OLog) :
    OState → List Nat → OState × LibStatus × OLog
  | s, [] => (s, .ok, [])
  | s, d :: ds =>
    match step s d with
    | (s1, LibStatus.fail, l1) => (s1, .fail, l1)
    | (s1, LibStatus.ok, l1) =>
      match runSeq step s1 ds with
      | (s2, st2, l2) => (s2, st2, l1 ++ l2)

/-- The source-reference recursion (main.c lines 250-252). -/
def processSrc (step : OState → Nat → OState × LibStatus × OLog) (s : OState) :
    Option Nat → OState × LibStatus × OLog
  | none => (s, .ok, [])
  | some sd => step s sd

/-- Stage phase wrapper accumulating the log. -/
def procStages (g : OGraph) (r : Nat) (l01 : OLog) (s3 : OState) :
    OState × LibStatus × OLog :=
  match runStages g s3 r with
  | (s4, st, l4) => (s4, st, l01 ++ l4)

/-- setup_recipe_state (main.c lines 273-277) abstracted to one oracle pull:
on failure process_recipe returns LIB_STATUS_FAIL without touching the
recipe's status or directory. -/
def procSetup (g : OGraph) (r : Nat) (l01 : OLog) (s2 : OState) :
    OState × LibStatus × OLog :=
  if s2.oracle s2.pos then procStages g r l01 (bump s2)
  else (bump s2, .fail, l01)

/-- The deps-directory cleanup (main.c lines 264-271) abstracted to one
oracle pull: on failure process_recipe returns LIB_STATUS_FAIL without
touching the recipe's status or directory. -/
def procPhase (g : OGraph) (r : Nat) (l01 : OLog) (s1 : OState) :
    OState × LibStatus × OLog :=
  if s1.oracle s1.pos then procSetup g r l01 (bump s1)
  else (bump s1, .fail, l01)

/-- The rest of a process_recipe frame after the dependency recursion:
the memo/skip guard of line 261, then cleanup, setup and stages. -/
def procAfterDeps (g : OGraph) (r : Nat) (l0 : OLog) (b : OState × LibStatus × OLog) :
    OState × LibStatus × OLog :=
  match b with
  | (s1, LibStatus.fail, l1) => (s1, .fail, l0 ++ l1)
  | (s1, LibStatus.ok, l1) =>
    if stableB s1 r then (s1, .ok, l0 ++ l1)
    else procPhase g r (l0 ++ l1) s1

/-- The rest of a process_recipe frame after the source-reference
recursion. -/
def procAfterSrc (g : OGraph) (step : OState → Nat → OState × LibStatus × OLog)
    (r : Nat) (a : OState × LibStatus × OLog) : OState × LibStatus × OLog :=
  match a with
  | (s0, LibStatus.fail, l0) => (s0, .fail, l0)
  | (s0, LibStatus.ok, l0) => procAfterDeps g r l0 (runSeq step s0 ((g r).deps))

/-- process_recipe (main.c lines 249-508) with explicit fuel for the
recursion over the dependency graph. -/
def processRecipe : Nat → OGraph → OState → Nat → OState × LibStatus × OLog
  | 0, _, s, _ => (s, .fail, [])
  | f+1, g, s, r =>
    procAfterSrc g (fun s' d => processRecipe f g s' d) r
      (processSrc (fun s' d => processRecipe f g s' d) s ((g r).srcDep))

/-- The recipes a process_recipe frame recurses into before its own guard. -/
def childList (g : OGraph) (r : Nat) : List Nat :=
  (match (g r).srcDep with
   | none => []
   | some sd => [sd]) ++ (g r).deps

/-- A recipe subtree is calm when every node satisfies the skip guard down to
the given depth.  Whenever a run marks a recipe failed, its whole subtree had
just returned OK, which makes it calm and, since status bits are never
cleared and invalidated is only set before processing starts, it stays calm
for the rest of the run. -/
def calmB : Nat → OGraph → OState → Nat → Bool
  | 0, _, _, _ => false
  | f+1, g, s, r => stableB s r && (childList g r).all (fun c => calmB f g s c)

/-- Concrete instances for the C9 witness: a single failed, dependency-free
recipe. -/
def og0 : OGraph := fun _ => { srcDep := none, deps := [], stages := 1 }

def os0 : OState :=
  { rstatus := fun n => if n = 0 then { built := false, failed := true, invalidated := false }
      else { built := false, failed := false, invalidated := false },
    dirEx := fun _ => false, oracle := fun _ => true, pos := 0 }

/-- Concrete instances for the C4 counterexample: a forced (invalidated)
recipe with one stage step and an all-failing environment, so the stage
command fails and the subsequent lib_path_delete of the recipe directory
fails too (main.c line 506 then only warns).  The recipe directory exists
when the terminate path runs, as it does in C after the stage phase's
lib_path_clean / lib_path_make calls created it. -/
def og1 : OGraph := fun _ => { srcDep := none, deps := [], stages := 1 }

def os1 : OState :=
  { rstatus := fun _ => { built := false, failed := false, invalidated := true },
    dirEx := fun _ => true, oracle := fun _ => false, pos := 0 }


/-- The memoization bits of a recipe: built or failed. -/
def bitset (s : OState) (r : Nat) : Prop :=
  (s.rstatus r).built = true ∨ (s.rstatus r).failed = true

/-- Invariant of any processing segment from s to s\' with log l: the memo
bits only grow; a recipe whose memo bit is set at the start logs no stage
step; a recipe that logged a stage step has its memo bit set at the end; and
no stage step is logged twice. -/
def SegOk (s s' : OState) (l : OLog) : Prop :=
  (∀ r, bitset s r → bitset s' r) ∧
  (∀ r k, bitset s r → (r, k) ∉ l) ∧
  (∀ r k, (r, k) ∈ l → bitset s' r) ∧
  (∀ r k, l.count (r, k) ≤ 1)

/-! ## Recipe configuration and the resolver (src/config.c) -/

/-- recipe_namespace_t: the three recipe namespaces. -/
inductive RNamespace where
  | source
  | host
  | target
deriving DecidableEq

/-- A recipe dependency entry (recipe_dependency_t): target namespace, name,
runtime flag and the handle filled in by the resolver.  Pointers into the
recipe array are modelled as indices, so `resolved` is an optional index. -/
structure CDep where
  ns : RNamespace
  name : String
  runtime : Bool
  resolved : Option Nat
deriving DecidableEq

/-- The recipe fields that config_read validates.  `source_name` and
`source_resolved` model host_target.source.name/.resolved; parse_recipe
initialises source_name for host/target recipes and leaves it NULL when the
block has no `source:` field (config.c lines 248-250). -/
structure CRecipe where
  ns : RNamespace
  name : String
  dependencies : List CDep
  source_name : Option String
  source_resolved : Option Nat
deriving DecidableEq

/-- find_recipe (config.c lines 335-342): the first recipe with the given
namespace and name, as an index into the recipe array. -/
def find_recipe (rs : List CRecipe) (ns : RNamespace) (nm : String) : Option Nat :=
  rs.findIdx? (fun r => r.ns = ns ∧ r.name = nm)

/-- Resolution of one dependency entry (config.c lines 352-359): look the
(namespace, name) pair up; a miss is the fatal "couldnt find dependency"
diagnostic followed by exit(EXIT_FAILURE), modelled as none. -/
def resolve_dep (rs : List CRecipe) (d : CDep) : Option CDep :=
  (find_recipe rs d.ns d.name).map (fun j => { d with resolved := some j })

/-- Resolution of a dependency list, left to right, aborting at the first
missing reference. -/
def resolve_deps (rs : List CRecipe) : List CDep → Option (List CDep)
  | [] => some []
  | d :: ds =>
    (resolve_dep rs d).bind (fun d' =>
      (resolve_deps rs ds).map (fun ds' => d' :: ds'))

/-- Resolution of the optional source reference of one recipe
(config.c lines 360-367): for a host/target recipe with a non-null source
name, look that name up in the source namespace; "couldnt find source" is
fatal (none). -/
def resolve_source_ref (rs : List CRecipe) (r : CRecipe) (ds : List CDep) : Option CRecipe :=
  if r.ns = RNamespace.host ∨ r.ns = RNamespace.target then
    match r.source_name with
    | none => some { r with dependencies := ds }
    | some nm =>
      (find_recipe rs RNamespace.source nm).map
        (fun j => { r with dependencies := ds, source_resolved := some j })
  else some { r with dependencies := ds }

/-- Resolution of one recipe (config.c lines 351-368): resolve every
dependency, then the source reference.  Lookups run against the unmodified
recipe list; in the C code the array is mutated in place, but resolution only
writes `resolved` fields, which find_recipe never reads, so the lookups
coincide. -/
def resolve_recipe (rs : List CRecipe) (r : CRecipe) : Option CRecipe :=
  (resolve_deps rs r.dependencies).bind (resolve_source_ref rs r)

/-- The resolver loop over all recipes (config.c lines 351-368). -/
def resolve_list (rs : List CRecipe) : List CRecipe → Option (List CRecipe)
  | [] => some []
  | r :: rest =>
    (resolve_recipe rs r).bind (fun r' =>
      (resolve_list rs rest).map (fun rest' => r' :: rest'))

/-- config_read after parsing (config.c lines 344-371): the parsed recipe
list (an arbitrary list here, since the claims quantify over every parsed
configuration) goes through the resolution pass; a missing reference makes
config_read exit instead of returning, modelled as none. -/
def config_resolve (rs : List CRecipe) : Option (List CRecipe) :=
  resolve_list rs rs

/-- A tiny two-recipe configuration used to instantiate C1 concretely. -/
def cfg0 : List CRecipe :=
  [{ ns := RNamespace.source, name := "liba", dependencies := [],
     source_name := none, source_resolved := none },
   { ns := RNamespace.host, name := "toolb",
     dependencies := [{ ns := RNamespace.source, name := "liba",
                        runtime := false, resolved := none }],
     source_name := some "liba", source_resolved := none }]

/-- The resolved form of cfg0 (checked below by rfl against config_resolve). -/
def cfg0r : List CRecipe :=
  [{ ns := RNamespace.source, name := "liba", dependencies := [],
     source_name := none, source_resolved := none },
   { ns := RNamespace.host, name := "toolb",
     dependencies := [{ ns := RNamespace.source, name := "liba",
                        runtime := false, resolved := some 0 }],
     source_name := some "liba", source_resolved := some 0 }]

end Chariot

namespace Chariot

/-! # Theorems -/

theorem find_recipe_spec {rs : List CRecipe} {ns : RNamespace} {nm : String} {j : Nat}
    (h : find_recipe rs ns nm = some j) :
    ∃ hj : j < rs.length, (rs.get ⟨j, hj⟩).ns = ns ∧ (rs.get ⟨j, hj⟩).name = nm := by
  unfold find_recipe at h
  rw [List.findIdx?_eq_some_iff_findIdx_eq] at h
  obtain ⟨hlt, hidx⟩ := h
  refine ⟨hlt, ?_⟩
  have := @List.findIdx_getElem _ (fun r => r.ns = ns ∧ r.name = nm) rs (by rw [hidx]; exact hlt)
  simp only [hidx] at this
  simpa using this

theorem resolve_dep_spec {rs : List CRecipe} {d d' : CDep}
    (h : resolve_dep rs d = some d') :
    d'.ns = d.ns ∧ d'.name = d.name ∧ d'.runtime = d.runtime ∧
      ∃ j, d'.resolved = some j ∧ find_recipe rs d.ns d.name = some j := by
  unfold resolve_dep at h
  cases hf : find_recipe rs d.ns d.name with
  | none => rw [hf] at h; simp at h
  | some j =>
    rw [hf] at h
    simp only [Option.map_some', Option.some.injEq] at h
    subst h
    exact ⟨rfl, rfl, rfl, j, rfl, rfl⟩

theorem resolve_deps_mem {rs : List CRecipe} {ds ds' : List CDep}
    (h : resolve_deps rs ds = some ds') :
    ∀ d' ∈ ds', ∃ d ∈ ds, resolve_dep rs d = some d' := by
  induction ds generalizing ds' with
  | nil =>
    simp only [resolve_deps, Option.some.injEq] at h
    subst h
    intro d' hd'
    simp at hd'
  | cons d ds ih =>
    simp only [resolve_deps] at h
    cases hd : resolve_dep rs d with
    | none => rw [hd] at h; simp at h
    | some d0 =>
      cases hds : resolve_deps rs ds with
      | none => rw [hd, hds] at h; simp at h
      | some ds0 =>
        rw [hd, hds] at h
        simp only [Option.some_bind, Option.map_some', Option.some.injEq] at h
        subst h
        intro d' hd'
        rcases List.mem_cons.mp hd' with h1 | h1
        · exact ⟨d, List.mem_cons_self _ _, h1 ▸ hd⟩
        · obtain ⟨d1, hm, he⟩ := ih hds d' h1
          exact ⟨d1, List.mem_cons_of_mem _ hm, he⟩

theorem resolve_source_ref_keeps {rs : List CRecipe} {r r' : CRecipe} {ds : List CDep}
    (h : resolve_source_ref rs r ds = some r') :
    r'.ns = r.ns ∧ r'.name = r.name ∧ r'.source_name = r.source_name ∧
      r'.dependencies = ds := by
  unfold resolve_source_ref at h
  by_cases hns : r.ns = RNamespace.host ∨ r.ns = RNamespace.target
  · rw [if_pos hns] at h
    cases hsn : r.source_name with
    | none =>
      simp only [hsn] at h
      simp only [Option.some.injEq] at h
      subst h
      exact ⟨rfl, rfl, rfl, rfl⟩
    | some nm =>
      simp only [hsn] at h
      cases hf : find_recipe rs RNamespace.source nm with
      | none => rw [hf] at h; simp at h
      | some j =>
        rw [hf] at h
        simp only [Option.map_some', Option.some.injEq] at h
        subst h
        exact ⟨rfl, rfl, rfl, rfl⟩
  · rw [if_neg hns] at h
    simp only [Option.some.injEq] at h
    subst h
    exact ⟨rfl, rfl, rfl, rfl⟩

theorem resolve_recipe_keeps {rs : List CRecipe} {r r' : CRecipe}
    (h : resolve_recipe rs r = some r') :
    r'.ns = r.ns ∧ r'.name = r.name ∧ r'.source_name = r.source_name ∧
      resolve_deps rs r.dependencies = some r'.dependencies := by
  unfold resolve_recipe at h
  cases hds : resolve_deps rs r.dependencies with
  | none => rw [hds] at h; simp at h
  | some ds =>
    rw [hds] at h
    simp only [Option.some_bind] at h
    obtain ⟨h1, h2, h3, h4⟩ := resolve_source_ref_keeps h
    exact ⟨h1, h2, h3, by rw [h4]⟩

theorem resolve_recipe_source {rs : List CRecipe} {r r' : CRecipe} {nm : String}
    (h : resolve_recipe rs r = some r')
    (hns : r.ns = RNamespace.host ∨ r.ns = RNamespace.target)
    (hsn : r.source_name = some nm) :
    ∃ j, r'.source_resolved = some j ∧ find_recipe rs RNamespace.source nm = some j := by
  unfold resolve_recipe at h
  cases hds : resolve_deps rs r.dependencies with
  | none => rw [hds] at h; simp at h
  | some ds =>
    rw [hds] at h
    simp only [Option.some_bind] at h
    unfold resolve_source_ref at h
    rw [if_pos hns] at h
    simp only [hsn] at h
    cases hf : find_recipe rs RNamespace.source nm with
    | none => rw [hf] at h; simp at h
    | some j =>
      rw [hf] at h
      simp only [Option.map_some', Option.some.injEq] at h
      subst h
      exact ⟨j, rfl, rfl⟩

theorem resolve_list_forall2 {rs : List CRecipe} {l l' : List CRecipe}
    (h : resolve_list rs l = some l') :
    List.Forall₂ (fun a b => resolve_recipe rs a = some b) l l' := by
  induction l generalizing l' with
  | nil =>
    simp only [resolve_list, Option.some.injEq] at h
    subst h
    exact List.Forall₂.nil
  | cons r rest ih =>
    simp only [resolve_list] at h
    cases hr : resolve_recipe rs r with
    | none => rw [hr] at h; simp at h
    | some r0 =>
      cases hrest : resolve_list rs rest with
      | none => rw [hr, hrest] at h; simp at h
      | some rest0 =>
        rw [hr, hrest] at h
        simp only [Option.some_bind, Option.map_some', Option.some.injEq] at h
        subst h
        exact List.Forall₂.cons hr (ih hrest)

theorem config_resolve_get {rs rs' : List CRecipe}
    (h : config_resolve rs = some rs') (j : Nat) (hj : j < rs.length) :
    ∃ hj' : j < rs'.length,
      resolve_recipe rs (rs.get ⟨j, hj⟩) = some (rs'.get ⟨j, hj'⟩) := by
  have hf := resolve_list_forall2 h
  have hlen := hf.length_eq
  refine ⟨by omega, ?_⟩
  have := List.forall₂_iff_get.mp hf
  exact this.2 j hj (by omega)

theorem forall2_mem_right {α β : Type} {P : α → β → Prop} {l : List α} {l' : List β}
    (hf : List.Forall₂ P l l') : ∀ b ∈ l', ∃ a ∈ l, P a b := by
  induction hf with
  | nil => intro b hb; simp at hb
  | cons hab htl ih =>
    intro b hb
    rcases List.mem_cons.mp hb with h1 | h1
    · exact ⟨_, List.mem_cons_self _ _, h1 ▸ hab⟩
    · obtain ⟨a, hm, hp⟩ := ih b h1
      exact ⟨a, List.mem_cons_of_mem _ hm, hp⟩

theorem config_resolve_mem {rs rs' : List CRecipe}
    (h : config_resolve rs = some rs') :
    ∀ r' ∈ rs', ∃ r ∈ rs, resolve_recipe rs r = some r' :=
  forall2_mem_right (resolve_list_forall2 h)


/-- C1: for every configuration accepted by config_read (config_resolve
returns some), every dependency entry of every recipe carries a resolved
index naming a recipe of the dependency namespace and name inside the
configured set, and every host/target recipe with a non-null source name
carries a resolved index naming a source-namespace recipe of that name.
A missing reference makes config_read exit (modelled as none), so it never
returns a configuration violating this. -/
theorem c1_resolution_total {rs rs' : List CRecipe}
    (h : config_resolve rs = some rs') :
    ∀ r' ∈ rs',
      (∀ d ∈ r'.dependencies, ∃ j, d.resolved = some j ∧
        ∃ hj : j < rs'.length,
          (rs'.get ⟨j, hj⟩).ns = d.ns ∧ (rs'.get ⟨j, hj⟩).name = d.name)
      ∧ (∀ nm, (r'.ns = RNamespace.host ∨ r'.ns = RNamespace.target) →
          r'.source_name = some nm → ∃ j, r'.source_resolved = some j ∧
            ∃ hj : j < rs'.length,
              (rs'.get ⟨j, hj⟩).ns = RNamespace.source ∧ (rs'.get ⟨j, hj⟩).name = nm) := by
  intro r' hr'
  have hlen : rs.length = rs'.length := (resolve_list_forall2 h).length_eq
  obtain ⟨r, hrm, hres⟩ := config_resolve_mem h r' hr'
  obtain ⟨hns, hname, hsn, hdeps⟩ := resolve_recipe_keeps hres
  constructor
  · intro d' hd'
    obtain ⟨d, hdm, hde⟩ := resolve_deps_mem hdeps d' hd'
    obtain ⟨h1, h2, h3, j, h4, h5⟩ := resolve_dep_spec hde
    obtain ⟨hj, hns2, hnm2⟩ := find_recipe_spec h5
    refine ⟨j, h4, by omega, ?_, ?_⟩
    · obtain ⟨hj', hrr⟩ := config_resolve_get h j hj
      obtain ⟨k1, k2, _, _⟩ := resolve_recipe_keeps hrr
      rw [h1, k1, hns2]
    · obtain ⟨hj', hrr⟩ := config_resolve_get h j hj
      obtain ⟨k1, k2, _, _⟩ := resolve_recipe_keeps hrr
      rw [h2, k2, hnm2]
  · intro nm hns' hsn'
    have hnsr : r.ns = RNamespace.host ∨ r.ns = RNamespace.target := by
      rw [← hns]; exact hns'
    have hsnr : r.source_name = some nm := by rw [← hsn]; exact hsn'
    obtain ⟨j, hj1, hj2⟩ := resolve_recipe_source hres hnsr hsnr
    obtain ⟨hj, hns2, hnm2⟩ := find_recipe_spec hj2
    refine ⟨j, hj1, by omega, ?_, ?_⟩
    · obtain ⟨hj', hrr⟩ := config_resolve_get h j hj
      obtain ⟨k1, k2, _, _⟩ := resolve_recipe_keeps hrr
      rw [k1, hns2]
    · obtain ⟨hj', hrr⟩ := config_resolve_get h j hj
      obtain ⟨k1, k2, _, _⟩ := resolve_recipe_keeps hrr
      rw [k2, hnm2]

theorem c1_resolution_total_witness :
    ∃ j, ({ ns := RNamespace.source, name := "liba", runtime := false,
            resolved := some 0 } : CDep).resolved = some j ∧
      ∃ hj : j < cfg0r.length,
        (cfg0r.get ⟨j, hj⟩).ns = RNamespace.source ∧
        (cfg0r.get ⟨j, hj⟩).name = "liba" :=
  (@c1_resolution_total cfg0 cfg0r rfl
      (cfg0r.get ⟨1, by decide⟩) (List.get_mem _ _ _)).1
    { ns := RNamespace.source, name := "liba", runtime := false, resolved := some 0 }
    (by decide)


theorem dedupFirst_filter (p : Bytes → Bool) :
    ∀ l : List Bytes, dedupFirst (l.filter p) = (dedupFirst l).filter p := by
  intro l
  induction l with
  | nil => rfl
  | cons x xs ih =>
    by_cases hp : p x = true
    · rw [List.filter_cons_of_pos hp]
      show dedupFirst (x :: xs.filter p) = (dedupFirst (x :: xs)).filter p
      rw [show dedupFirst (x :: xs.filter p)
            = x :: (dedupFirst (xs.filter p)).filter (fun y => y ≠ x) from rfl]
      rw [show dedupFirst (x :: xs) = x :: (dedupFirst xs).filter (fun y => y ≠ x) from rfl]
      rw [List.filter_cons_of_pos hp, ih]
      rw [List.filter_comm]
    · rw [List.filter_cons_of_neg hp]
      show dedupFirst (xs.filter p) = (dedupFirst (x :: xs)).filter p
      rw [show dedupFirst (x :: xs) = x :: (dedupFirst xs).filter (fun y => y ≠ x) from rfl]
      rw [List.filter_cons_of_neg hp, List.filter_comm, ih]
      refine (List.filter_eq_self.mpr ?_).symm
      intro y hy
      have hpy : p y = true := (List.mem_filter.mp hy).2
      simp only [decide_eq_true_eq]
      intro he
      rw [he] at hpy
      exact hp hpy

theorem collect_eq : ∀ (P : List Bytes) (acc : List Bytes),
    collectImgs acc P = acc ++ dedupFirst (P.filter (fun y => y ∉ acc)) := by
  intro P
  induction P with
  | nil => intro acc; simp [collectImgs, dedupFirst]
  | cons x xs ih =>
    intro acc
    show collectImgs (if x ∈ acc then acc else acc ++ [x]) xs = _
    by_cases hx : x ∈ acc
    · rw [if_pos hx, ih]
      congr 1
      congr 1
      rw [List.filter_cons_of_neg (by simpa using hx)]
    · rw [if_neg hx, ih]
      rw [List.filter_cons_of_pos (by simpa using hx)]
      show (acc ++ [x]) ++ dedupFirst (xs.filter fun y => y ∉ acc ++ [x]) =
        acc ++ (x :: (dedupFirst (xs.filter fun y => y ∉ acc)).filter (fun y => y ≠ x))
      rw [List.append_assoc]
      congr 1
      show x :: dedupFirst (xs.filter fun y => y ∉ acc ++ [x]) = _
      congr 1
      have hfe : (xs.filter fun y => y ∉ acc ++ [x])
          = (xs.filter fun y => y ∉ acc).filter (fun y => y ≠ x) := by
        rw [List.filter_filter]
        apply List.filter_congr
        intro y _
        simp [List.mem_append, not_or, and_comm]
      rw [hfe, dedupFirst_filter]

theorem collect_nil (P : List Bytes) : collectImgs [] P = dedupFirst P := by
  rw [collect_eq]
  simp

theorem chainPath_cons : ∀ (xs : List Bytes) (base x : Bytes),
    chainPath base (x :: xs) = base ++ 47 :: joinWithSlash (x :: xs) := by
  intro xs
  induction xs with
  | nil => intro base x; rfl
  | cons y ys ih =>
    intro base x
    show chainPath (lib_path_join base x) (y :: ys) = _
    rw [ih]
    show (base ++ 47 :: x) ++ 47 :: joinWithSlash (y :: ys)
        = base ++ 47 :: (x ++ 47 :: joinWithSlash (y :: ys))
    simp

theorem sorted_unique {l l' : List Bytes} (h : l.Perm l') :
    List.insertionSort leP l = List.insertionSort leP l' :=
  @List.eq_of_perm_of_sorted Bytes leP _ _ _
    ((List.perm_insertionSort leP l).trans (h.trans (List.perm_insertionSort leP l').symm))
    (List.sorted_insertionSort leP l)
    (List.sorted_insertionSort leP l')

/-- C2: the image path produced by setup_recipe_state is the sets base path
followed by the slash-joined, strcmp-sorted deduplication of the collected
image-dependency list (first conjunct relates the code-side fold to the
spec-side sort(dedup(P)); the second writes it in the spec formula shape for a
non-empty collection); and two walks whose deduplicated collections are
permutations of each other produce identical paths (third conjunct). -/
theorem c2_image_path (base : Bytes) (P Q : List Bytes) :
    image_path base P = chainPath base (List.insertionSort leP (dedupFirst P))
    ∧ (P ≠ [] →
        image_path base P
          = base ++ 47 :: joinWithSlash (List.insertionSort leP (dedupFirst P)))
    ∧ (List.Perm (dedupFirst P) (dedupFirst Q) →
        image_path base P = image_path base Q) := by
  refine ⟨by rw [image_path, collect_nil], ?_, ?_⟩
  · intro hne
    rw [image_path, collect_nil]
    cases hP : P with
    | nil => exact absurd hP hne
    | cons x xs =>
      cases hs : List.insertionSort leP (dedupFirst (x :: xs)) with
      | nil =>
        have hp2 := List.perm_insertionSort leP (dedupFirst (x :: xs))
        rw [hs] at hp2
        have : dedupFirst (x :: xs) = [] := hp2.symm.eq_nil
        exact absurd this (by
          rw [show dedupFirst (x :: xs)
                = x :: (dedupFirst xs).filter (fun y => y ≠ x) from rfl]
          simp)
      | cons z zs =>
        exact chainPath_cons zs base z
  · intro hperm
    rw [image_path, image_path, collect_nil, collect_nil, sorted_unique hperm]

theorem c2_image_path_witness :
    image_path base0 imgP0
        = base0 ++ 47 :: joinWithSlash (List.insertionSort leP (dedupFirst imgP0))
    ∧ image_path base0 imgP0 = image_path base0 imgQ0 :=
  ⟨(c2_image_path base0 imgP0 imgQ0).2.1 (by decide),
   (c2_image_path base0 imgP0 imgQ0).2.2 (by decide)⟩


theorem statusLtZero_false (s : LibStatus) : statusLtZero s = false := by
  cases s <;> rfl

theorem succNew_append (a b : List (Nat × Nat × Bool)) :
    succNew (a ++ b) = succNew a ++ succNew b := by
  unfold succNew
  rw [List.filterMap_append]

theorem Ext_rfl (st : ISt) : Ext st st [] := by
  refine ⟨by simp, by simp [succNew], ?_, by simp [succNew]⟩
  intro c hc
  simp [succNew] at hc

theorem Ext_comp {st st1 st2 : ISt} {n1 n2 : List (Nat × Nat × Bool)}
    (h1 : Ext st st1 n1) (h2 : Ext st1 st2 n2) : Ext st st2 (n1 ++ n2) := by
  obtain ⟨e1, i1, f1, d1⟩ := h1
  obtain ⟨e2, i2, f2, d2⟩ := h2
  refine ⟨by rw [e2, e1, List.append_assoc], ?_, ?_, ?_⟩
  · rw [i2, i1, succNew_append, List.append_assoc]
  · intro c hc
    rw [succNew_append] at hc
    rcases List.mem_append.mp hc with h | h
    · exact f1 c h
    · have := f2 c h
      rw [i1] at this
      intro hmem
      exact this (List.mem_append_left _ hmem)
  · rw [succNew_append, List.nodup_append]
    refine ⟨d1, d2, ?_⟩
    intro c hc1 hc2
    have := f2 c hc2
    rw [i1] at this
    exact this (List.mem_append_right _ hc1)

theorem Ext_mem_inst {st st' : ISt} {n : List (Nat × Nat × Bool)} {c : Nat}
    (h : Ext st st' n) (hc : c ∈ st.inst) : c ∈ st'.inst := by
  rw [h.2.1]
  exact List.mem_append_left _ hc

theorem depLoop_main (g : SGraph) (copy : Nat → Bool)
    (stepf : ISt → Nat → ISt × LibStatus) (r root : Nat) (runtime : Bool)
    (Hrec : ∀ st d, ∃ n, Ext st (stepf st d).1 n)
    (HrecOk : ∀ st d, (∀ e ∈ st.evs, evOk g root e) →
        ∀ e ∈ (stepf st d).1.evs, evOk g root e)
    (Hrt : runtime = false → r = root) :
    ∀ (ds : List SDep) (st : ISt), (∀ d ∈ ds, d ∈ (g r).dependencies) →
      (∃ n, Ext st (depLoop copy stepf r runtime st ds).1 n)
      ∧ ((∀ e ∈ st.evs, evOk g root e) →
          ∀ e ∈ (depLoop copy stepf r runtime st ds).1.evs, evOk g root e)
      ∧ ((depLoop copy stepf r runtime st ds).2 = .fail →
          ∃ d ∈ ds, copy d.resolved = false ∧
            (r, d.resolved, false) ∈ (depLoop copy stepf r runtime st ds).1.evs)
      ∧ (runtime = false → (depLoop copy stepf r runtime st ds).2 = .ok →
          ∀ d ∈ ds, d.resolved ∈ (depLoop copy stepf r runtime st ds).1.inst) := by
  intro ds
  induction ds with
  | nil =>
    intro st _
    refine ⟨⟨[], Ext_rfl st⟩, fun h => h, by intro h; exact absurd h (by simp [depLoop]), ?_⟩
    intro _ _ d hd
    exact absurd hd (by simp)
  | cons d ds ih =>
    intro st hds
    have hdm : d ∈ (g r).dependencies := hds d (List.mem_cons_self _ _)
    have hds' : ∀ x ∈ ds, x ∈ (g r).dependencies :=
      fun x hx => hds x (List.mem_cons_of_mem _ hx)
    by_cases hrt : (runtime && !d.runtime) = true
    · -- runtime filter skips d
      have hred : depLoop copy stepf r runtime st (d :: ds)
          = depLoop copy stepf r runtime st ds := by
        show (if runtime && !d.runtime then _ else _) = _
        rw [if_pos hrt]
      obtain ⟨hext, hok, hfail, hcomp⟩ := ih st hds'
      rw [hred]
      refine ⟨hext, hok, ?_, ?_⟩
      · intro hf
        obtain ⟨x, hx, hc, he⟩ := hfail hf
        exact ⟨x, List.mem_cons_of_mem _ hx, hc, he⟩
      · intro hrf
        -- with runtime = false the filter cannot have fired
        rw [hrf] at hrt
        simp at hrt
    · by_cases hin : d.resolved ∈ st.inst
      · have hred : depLoop copy stepf r runtime st (d :: ds)
            = depLoop copy stepf r runtime st ds := by
          show (if runtime && !d.runtime then _ else _) = _
          rw [if_neg hrt, if_pos hin]
        obtain ⟨hext, hok, hfail, hcomp⟩ := ih st hds'
        rw [hred]
        refine ⟨hext, hok, ?_, ?_⟩
        · intro hf
          obtain ⟨x, hx, hc, he⟩ := hfail hf
          exact ⟨x, List.mem_cons_of_mem _ hx, hc, he⟩
        · intro hrf hokk
          intro x hx
          rcases List.mem_cons.mp hx with h1 | h1
          · subst h1
            obtain ⟨n, hn⟩ := hext
            exact Ext_mem_inst hn hin
          · exact hcomp hrf hokk x h1
      · by_cases hb : copy d.resolved = true
        · -- staged successfully, then recursion, then rest of loop
          set st2 : ISt :=
            { st with evs := st.evs ++ [(r, d.resolved, true)],
                      inst := st.inst ++ [d.resolved] } with hst2
          have hred : depLoop copy stepf r runtime st (d :: ds)
              = depLoop copy stepf r runtime (stepf st2 d.resolved).1 ds := by
            show (if runtime && !d.runtime then _ else _) = _
            rw [if_neg hrt, if_neg hin, if_pos hb]
            show (if statusLtZero (stepf st2 d.resolved).2 then _ else _) = _
            rw [statusLtZero_false]
            simp
          have hstep : Ext st st2 [(r, d.resolved, true)] := by
            refine ⟨rfl, by simp [hst2, succNew], ?_, by simp [succNew]⟩
            intro c hc
            simp [succNew] at hc
            rw [hc]; exact hin
          obtain ⟨n1, h1⟩ := Hrec st2 d.resolved
          obtain ⟨hext, hok, hfail, hcomp⟩ := ih (stepf st2 d.resolved).1 hds'
          rw [hred]
          obtain ⟨n2, h2⟩ := hext
          have hall : Ext st (depLoop copy stepf r runtime (stepf st2 d.resolved).1 ds).1
              ([(r, d.resolved, true)] ++ n1 ++ n2) :=
            Ext_comp (Ext_comp hstep h1) h2
          refine ⟨⟨_, hall⟩, ?_, ?_, ?_⟩
          · intro hpre
            apply hok
            apply HrecOk
            intro e he
            rcases List.mem_append.mp he with h | h
            · exact hpre e h
            · rw [List.mem_singleton] at h
              subst h
              refine ⟨⟨d, hdm, rfl⟩, ?_⟩
              by_cases hrf : runtime = true
              · right
                refine ⟨d, hdm, rfl, ?_⟩
                rw [hrf] at hrt
                simp at hrt
                exact hrt
              · left
                exact Hrt (by simpa using hrf)
          · intro hf
            obtain ⟨x, hx, hc, he⟩ := hfail hf
            exact ⟨x, List.mem_cons_of_mem _ hx, hc, he⟩
          · intro hrf hokk x hx
            rcases List.mem_cons.mp hx with h1 | h1
            · subst h1
              have hmem : x.resolved ∈ st2.inst := by
                rw [hst2]
                show x.resolved ∈ st.inst ++ [x.resolved]
                exact List.mem_append_right _ (List.mem_singleton_self _)
              exact Ext_mem_inst h2 (Ext_mem_inst h1 hmem)
            · exact hcomp hrf hokk x h1
        · -- copy failed: the frame aborts with a logged failure event
          have hb' : copy d.resolved = false := by simpa using hb
          set st1 : ISt :=
            { st with evs := st.evs ++ [(r, d.resolved, false)] } with hst1
          have hred : depLoop copy stepf r runtime st (d :: ds) = (st1, .fail) := by
            show (if runtime && !d.runtime then _ else _) = _
            rw [if_neg hrt, if_neg hin, hb']
            simp
          rw [hred]
          have hstep : Ext st st1 [(r, d.resolved, false)] := by
            refine ⟨rfl, by simp [hst1, succNew], ?_, by simp [succNew]⟩
            intro c hc
            simp [succNew] at hc
          refine ⟨⟨_, hstep⟩, ?_, ?_, ?_⟩
          · intro hpre e he
            rw [hst1] at he
            rcases List.mem_append.mp he with h | h
            · exact hpre e h
            · rw [List.mem_singleton] at h
              subst h
              refine ⟨⟨d, hdm, rfl⟩, ?_⟩
              by_cases hrf : runtime = true
              · right
                refine ⟨d, hdm, rfl, ?_⟩
                rw [hrf] at hrt
                simp at hrt
                exact hrt
              · left
                exact Hrt (by simpa using hrf)
          · intro _
            refine ⟨d, List.mem_cons_self _ _, hb', ?_⟩
            rw [hst1]
            show (r, d.resolved, false) ∈ st.evs ++ [(r, d.resolved, false)]
            exact List.mem_append_right _ (List.mem_singleton_self _)
          · intro _ hokk
            exact absurd hokk (by simp)


theorem Ext_addImgs {st st' : ISt} {n : List (Nat × Nat × Bool)} (runtime : Bool)
    (l : List (Bytes × Bool)) (h : Ext st st' n) : Ext st (addImgs runtime st' l) n := h

theorem install_deps_succ (f : Nat) (g : SGraph) (copy : Nat → Bool) (r : Nat)
    (runtime : Bool) (st : ISt) :
    install_deps (f+1) g copy r runtime st =
      match (depLoop copy (fun s d => install_deps f g copy d true s) r runtime st
          (g r).dependencies).2 with
      | .fail => ((depLoop copy (fun s d => install_deps f g copy d true s) r runtime st
          (g r).dependencies).1, .fail)
      | .ok => (addImgs runtime (depLoop copy (fun s d => install_deps f g copy d true s)
          r runtime st (g r).dependencies).1 (g r).image_deps, .ok) := rfl

theorem install_main (g : SGraph) (copy : Nat → Bool) (root : Nat) :
    ∀ (f : Nat) (r : Nat) (runtime : Bool) (st : ISt), (runtime = false → r = root) →
      (∃ n, Ext st (install_deps f g copy r runtime st).1 n)
      ∧ ((∀ e ∈ st.evs, evOk g root e) →
          ∀ e ∈ (install_deps f g copy r runtime st).1.evs, evOk g root e)
      ∧ (∀ f', f = f' + 1 → (install_deps f g copy r runtime st).2 = .fail →
          ∃ d ∈ (g r).dependencies, copy d.resolved = false ∧
            (r, d.resolved, false) ∈ (install_deps f g copy r runtime st).1.evs)
      ∧ (∀ f', f = f' + 1 → runtime = false →
          (install_deps f g copy r runtime st).2 = .ok →
          ∀ d ∈ (g r).dependencies, d.resolved ∈ (install_deps f g copy r runtime st).1.inst) := by
  intro f
  induction f with
  | zero =>
    intro r runtime st _
    refine ⟨⟨[], Ext_rfl st⟩, fun h => h, ?_, ?_⟩
    · intro f' hf
      exact absurd hf (by omega)
    · intro f' hf
      exact absurd hf (by omega)
  | succ f ihf =>
    intro r runtime st Hrt
    have Hrec : ∀ st' d, ∃ n, Ext st' (install_deps f g copy d true st').1 n :=
      fun st' d => (ihf d true st' (fun h => absurd h (by simp))).1
    have HrecOk : ∀ st' d, (∀ e ∈ st'.evs, evOk g root e) →
        ∀ e ∈ (install_deps f g copy d true st').1.evs, evOk g root e :=
      fun st' d => (ihf d true st' (fun h => absurd h (by simp))).2.1
    obtain ⟨Lext, Lok, Lfail, Lcomp⟩ :=
      depLoop_main g copy (fun s d => install_deps f g copy d true s) r root runtime
        Hrec HrecOk Hrt (g r).dependencies st (fun _ hd => hd)
    cases hp : (depLoop copy (fun s d => install_deps f g copy d true s) r runtime st
        (g r).dependencies).2 with
    | fail =>
      have hout : install_deps (f+1) g copy r runtime st
          = ((depLoop copy (fun s d => install_deps f g copy d true s) r runtime st
              (g r).dependencies).1, .fail) := by
        rw [install_deps_succ, hp]
      rw [hout]
      refine ⟨Lext, Lok, ?_, ?_⟩
      · intro _ _ _
        exact Lfail hp
      · intro f' _ _ hok
        exact absurd hok (by simp)
    | ok =>
      have hout : install_deps (f+1) g copy r runtime st
          = (addImgs runtime (depLoop copy (fun s d => install_deps f g copy d true s)
              r runtime st (g r).dependencies).1 (g r).image_deps, .ok) := by
        rw [install_deps_succ, hp]
      rw [hout]
      refine ⟨?_, Lok, ?_, ?_⟩
      · obtain ⟨n, hn⟩ := Lext
        exact ⟨n, Ext_addImgs runtime (g r).image_deps hn⟩
      · intro f' _ hfl
        exact absurd hfl (by simp)
      · intro f' _ hrf _ d hd
        exact Lcomp hrf hp d hd

/-- C5: in the staging walk of install_deps rooted at R (runtime = false,
empty installed list, as called from setup_recipe_state), (1) a walk that
returns OK has staged every direct dependency of R, runtime or not (each ends
up in the installed list); (2) each dependency is successfully staged at most
once per walk (the installed set makes the staged targets pairwise distinct);
(3) every staging event belongs to the root frame or stages a runtime
dependency of its (already staged) parent. -/
theorem c5_dependency_staging (f : Nat) (g : SGraph) (copy : Nat → Bool) (r : Nat) :
    ((install_deps (f+1) g copy r false istInit).2 = LibStatus.ok →
        ∀ d ∈ (g r).dependencies,
          d.resolved ∈ (install_deps (f+1) g copy r false istInit).1.inst)
    ∧ (succNew ((install_deps (f+1) g copy r false istInit).1.evs)).Nodup
    ∧ (∀ e ∈ (install_deps (f+1) g copy r false istInit).1.evs, evOk g r e) := by
  obtain ⟨hext, hok, hfail, hcomp⟩ :=
    install_main g copy r (f+1) r false istInit (fun _ => rfl)
  refine ⟨?_, ?_, ?_⟩
  · intro hokk d hd
    exact hcomp f rfl rfl hokk d hd
  · obtain ⟨n, he, hi, hf, hd⟩ := hext
    have : (install_deps (f+1) g copy r false istInit).1.evs = n := by
      rw [he]
      rfl
    rw [this]
    exact hd
  · apply hok
    intro e he
    exact absurd he (by simp [istInit])

/-- C10: install_deps propagates staging failures only for the current
frame's direct dependencies: a LIB_STATUS_FAIL result always comes from a
direct dependency whose copy failed (first conjunct), because the recursive
call's status is compared with `< 0` (main.c line 184), which no lib_status_t
value satisfies; the second and third conjuncts run a concrete graph in which
a depth-two staging copy fails (its failure event is in the log) while
install_deps still returns LIB_STATUS_OK. -/
theorem c10_recursive_failure_discarded :
    (∀ (f : Nat) (g : SGraph) (copy : Nat → Bool) (r : Nat) (runtime : Bool) (st : ISt),
        (install_deps (f+1) g copy r runtime st).2 = LibStatus.fail →
          ∃ d ∈ (g r).dependencies, copy d.resolved = false ∧
            (r, d.resolved, false) ∈ (install_deps (f+1) g copy r runtime st).1.evs)
    ∧ (install_deps 3 gA copyA 0 false istInit).2 = LibStatus.ok
    ∧ (1, 2, false) ∈ (install_deps 3 gA copyA 0 false istInit).1.evs := by
  refine ⟨?_, by decide, by decide⟩
  intro f g copy r runtime st hfl
  obtain ⟨hext, hok, hfail, hcomp⟩ :=
    install_main g copy r (f+1) r runtime st (fun _ => rfl)
  exact hfail f rfl hfl

theorem c5_dependency_staging_witness :
    (1 : Nat) ∈ (install_deps 2 gB copyT 0 false istInit).1.inst :=
  (c5_dependency_staging 1 gB copyT 0).1 rfl
    { runtime := false, resolved := 1 } (by decide)

theorem c10_recursive_failure_discarded_witness :
    (0, 1, false) ∈ (install_deps 1 gB copyB 0 false istInit).1.evs := by
  obtain ⟨d, hd, hc, he⟩ :=
    c10_recursive_failure_discarded.1 0 gB copyB 0 false istInit rfl
  have hde : d = { runtime := false, resolved := 1 } := by
    simpa [gB] using hd
  rw [hde] at he
  exact he


theorem bitset_stable {s : OState} {r : Nat} (h : bitset s r) : stableB s r = true := by
  unfold stableB
  rcases h with h | h
  · rw [h]; rfl
  · rw [h]; simp

theorem SegOk_nil {s s' : OState} (h : ∀ r, s'.rstatus r = s.rstatus r) :
    SegOk s s' [] := by
  refine ⟨?_, ?_, ?_, ?_⟩
  · intro r hb
    unfold bitset at hb ⊢
    rw [h]
    exact hb
  · intro r k _ hm
    exact absurd hm (List.not_mem_nil _)
  · intro r k hm
    exact absurd hm (List.not_mem_nil _)
  · intro r k
    simp

theorem SegOk_cast {s s1 s2 : OState} {l : OLog} (h : SegOk s s1 l)
    (he : ∀ r, s2.rstatus r = s1.rstatus r) : SegOk s s2 l := by
  obtain ⟨m, b, i, c⟩ := h
  refine ⟨?_, b, ?_, c⟩
  · intro r hb
    unfold bitset
    rw [he]
    exact m r hb
  · intro r k hm
    unfold bitset
    rw [he]
    exact i r k hm

theorem SegOk_comp {s s1 s2 : OState} {l1 l2 : OLog}
    (h1 : SegOk s s1 l1) (h2 : SegOk s1 s2 l2) : SegOk s s2 (l1 ++ l2) := by
  obtain ⟨m1, b1, i1, c1⟩ := h1
  obtain ⟨m2, b2, i2, c2⟩ := h2
  refine ⟨fun r hb => m2 r (m1 r hb), ?_, ?_, ?_⟩
  · intro r k hb hm
    rcases List.mem_append.mp hm with h | h
    · exact b1 r k hb h
    · exact b2 r k (m1 r hb) h
  · intro r k hm
    rcases List.mem_append.mp hm with h | h
    · exact m2 r (i1 r k h)
    · exact i2 r k h
  · intro r k
    rw [List.count_append]
    by_cases hm : (r, k) ∈ l1
    · have hz : l2.count (r, k) = 0 := List.count_eq_zero.mpr (b2 r k (i1 r k hm))
      rw [hz]
      simpa using c1 r k
    · have hz : l1.count (r, k) = 0 := List.count_eq_zero.mpr hm
      rw [hz]
      simpa using c2 r k

theorem stagesGo_rstatus (r : Nat) :
    ∀ (n k : Nat) (s : OState), ((stagesGo r n k s).1).rstatus = s.rstatus := by
  intro n
  induction n with
  | zero => intro k s; rfl
  | succ n ih =>
    intro k s
    show ((if s.oracle s.pos then _ else _ : OState × LibStatus × OLog)).1.rstatus = _
    by_cases ho : s.oracle s.pos = true
    · rw [if_pos ho]
      rcases hg : stagesGo r n (k+1) (bump s) with ⟨s1, st, l⟩
      have := ih (k+1) (bump s)
      rw [hg] at this
      simpa [hg] using this
    · rw [if_neg ho]
      rfl

theorem stagesGo_dirEx (r : Nat) :
    ∀ (n k : Nat) (s : OState), ((stagesGo r n k s).1).dirEx = s.dirEx := by
  intro n
  induction n with
  | zero => intro k s; rfl
  | succ n ih =>
    intro k s
    show ((if s.oracle s.pos then _ else _ : OState × LibStatus × OLog)).1.dirEx = _
    by_cases ho : s.oracle s.pos = true
    · rw [if_pos ho]
      rcases hg : stagesGo r n (k+1) (bump s) with ⟨s1, st, l⟩
      have := ih (k+1) (bump s)
      rw [hg] at this
      simpa [hg] using this
    · rw [if_neg ho]
      rfl

theorem stagesGo_log (r : Nat) :
    ∀ (n k : Nat) (s : OState) (e : Nat × Nat), e ∈ (stagesGo r n k s).2.2 →
      e.1 = r ∧ k ≤ e.2 := by
  intro n
  induction n with
  | zero =>
    intro k s e hm
    exact absurd hm (List.not_mem_nil _)
  | succ n ih =>
    intro k s e hm
    revert hm
    show e ∈ ((if s.oracle s.pos then _ else _ : OState × LibStatus × OLog)).2.2 → _
    by_cases ho : s.oracle s.pos = true
    · rw [if_pos ho]
      rcases hg : stagesGo r n (k+1) (bump s) with ⟨s1, st, l⟩
      intro hm
      simp only [hg] at hm
      rcases List.mem_cons.mp hm with h | h
      · subst h
        exact ⟨rfl, Nat.le_refl _⟩
      · have := ih (k+1) (bump s) e (by rw [hg]; exact h)
        exact ⟨this.1, by omega⟩
    · rw [if_neg ho]
      intro hm
      rcases List.mem_singleton.mp hm with h
      subst h
      exact ⟨rfl, Nat.le_refl _⟩

theorem stagesGo_count (r : Nat) :
    ∀ (n k : Nat) (s : OState) (p : Nat × Nat), ((stagesGo r n k s).2.2).count p ≤ 1 := by
  intro n
  induction n with
  | zero => intro k s p; simp [stagesGo]
  | succ n ih =>
    intro k s p
    show ((if s.oracle s.pos then _ else _ : OState × LibStatus × OLog)).2.2.count p ≤ 1
    by_cases ho : s.oracle s.pos = true
    · rw [if_pos ho]
      rcases hg : stagesGo r n (k+1) (bump s) with ⟨s1, st, l⟩
      show (((s1, st, (r, k) :: l) : OState × LibStatus × OLog)).2.2.count p ≤ 1
      show ((r, k) :: l).count p ≤ 1
      by_cases hp : p = (r, k)
      · subst hp
        rw [List.count_cons_self]
        have hz : l.count (r, k) = 0 := by
          rw [List.count_eq_zero]
          intro hm
          have := stagesGo_log r n (k+1) (bump s) (r, k) (by rw [hg]; exact hm)
          omega
        omega
      · rw [List.count_cons_of_ne (by exact hp)]
        have := ih (k+1) (bump s) p
        rw [hg] at this
        exact this
    · rw [if_neg ho]
      show ([(r, k)] : OLog).count p ≤ 1
      exact le_trans (List.count_le_length _ _) (by simp)

theorem markBuilt_bitset (s : OState) (r : Nat) : bitset (markBuilt s r) r := by
  left
  show (updStatus s.rstatus r (setBuilt (s.rstatus r)) r).built = true
  unfold updStatus
  rw [if_pos rfl]
  rfl

theorem markFailed_bitset (s : OState) (r : Nat) (delOk : Bool) :
    bitset (markFailed s r delOk) r := by
  right
  show (updStatus s.rstatus r (setFailed (s.rstatus r)) r).failed = true
  unfold updStatus
  rw [if_pos rfl]
  rfl

theorem markBuilt_mono {s : OState} {q r : Nat} (h : bitset s q) :
    bitset (markBuilt s r) q := by
  unfold bitset at h ⊢
  show (updStatus s.rstatus r (setBuilt (s.rstatus r)) q).built = true
    ∨ (updStatus s.rstatus r (setBuilt (s.rstatus r)) q).failed = true
  unfold updStatus
  by_cases hq : q = r
  · subst hq
    rcases h with h | h
    · left; simp [setBuilt]
    · right; simp [setBuilt, h]
  · simp only [if_neg hq]
    exact h

theorem markFailed_mono {s : OState} {q r : Nat} (delOk : Bool) (h : bitset s q) :
    bitset (markFailed s r delOk) q := by
  unfold bitset at h ⊢
  show (updStatus s.rstatus r (setFailed (s.rstatus r)) q).built = true
    ∨ (updStatus s.rstatus r (setFailed (s.rstatus r)) q).failed = true
  unfold updStatus
  by_cases hq : q = r
  · subst hq
    right
    simp [setFailed]
  · simp only [if_neg hq]
    exact h

theorem runStages_seg (g : OGraph) {s : OState} {r0 : Nat} (h : ¬ bitset s r0) :
    SegOk s (runStages g s r0).1 (runStages g s r0).2.2 := by
  rcases hg : stagesGo r0 ((g r0).stages) 0 s with ⟨s1, st, l⟩
  have hrs : s1.rstatus = s.rstatus := by
    have := stagesGo_rstatus r0 ((g r0).stages) 0 s
    rw [hg] at this
    exact this
  have hlog : ∀ e ∈ l, e.1 = r0 := by
    intro e he
    exact (stagesGo_log r0 ((g r0).stages) 0 s e (by rw [hg]; exact he)).1
  have hcnt : ∀ p : Nat × Nat, l.count p ≤ 1 := by
    intro p
    have := stagesGo_count r0 ((g r0).stages) 0 s p
    rw [hg] at this
    exact this
  cases st with
  | ok =>
    have hred : runStages g s r0 = (markBuilt s1 r0, .ok, l) := by
      unfold runStages
      rw [hg]
    rw [hred]
    refine ⟨?_, ?_, ?_, fun q k => hcnt (q, k)⟩
    · intro q hb
      apply markBuilt_mono
      unfold bitset
      rw [hrs]
      exact hb
    · intro q k hb hm
      have := hlog (q, k) hm
      simp only at this
      subst this
      exact h hb
    · intro q k hm
      have := hlog (q, k) hm
      simp only at this
      subst this
      exact markBuilt_bitset s1 q
  | fail =>
    have hred : runStages g s r0 = (markFailed s1 r0 (s1.oracle s1.pos), .fail, l) := by
      unfold runStages
      rw [hg]
    rw [hred]
    refine ⟨?_, ?_, ?_, fun q k => hcnt (q, k)⟩
    · intro q hb
      apply markFailed_mono
      unfold bitset
      rw [hrs]
      exact hb
    · intro q k hb hm
      have := hlog (q, k) hm
      simp only at this
      subst this
      exact h hb
    · intro q k hm
      have := hlog (q, k) hm
      simp only at this
      subst this
      exact markFailed_bitset s1 q (s1.oracle s1.pos)

theorem runSeq_cons (step : OState → Nat → OState × LibStatus × OLog)
    (s : OState) (d : Nat) (ds : List Nat) :
    runSeq step s (d :: ds)
      = (match step s d with
         | (s1, LibStatus.fail, l1) => (s1, LibStatus.fail, l1)
         | (s1, LibStatus.ok, l1) =>
           match runSeq step s1 ds with
           | (s2, st2, l2) => (s2, st2, l1 ++ l2)) := rfl

theorem runSeq_seg (step : OState → Nat → OState × LibStatus × OLog)
    (H : ∀ s d, SegOk s (step s d).1 (step s d).2.2) :
    ∀ (ds : List Nat) (s : OState),
      SegOk s (runSeq step s ds).1 (runSeq step s ds).2.2 := by
  intro ds
  induction ds with
  | nil =>
    intro s
    exact SegOk_nil (fun _ => rfl)
  | cons d ds ih =>
    intro s
    rcases hstep : step s d with ⟨s1, st1, l1⟩
    have hA : SegOk s s1 l1 := by
      have := H s d
      rw [hstep] at this
      exact this
    cases st1 with
    | fail =>
      have hred : runSeq step s (d :: ds) = (s1, .fail, l1) := by
        rw [runSeq_cons, hstep]
      rw [hred]
      exact hA
    | ok =>
      rcases hrest : runSeq step s1 ds with ⟨s2, st2, l2⟩
      have hB : SegOk s1 s2 l2 := by
        have := ih s1
        rw [hrest] at this
        exact this
      have hred : runSeq step s (d :: ds) = (s2, st2, l1 ++ l2) := by
        rw [runSeq_cons, hstep]
        show (match runSeq step s1 ds with
          | (s2, st2, l2) => ((s2, st2, l1 ++ l2) : OState × LibStatus × OLog)) = _
        rw [hrest]
      rw [hred]
      exact SegOk_comp hA hB

theorem processSrc_seg (step : OState → Nat → OState × LibStatus × OLog)
    (H : ∀ s d, SegOk s (step s d).1 (step s d).2.2) (s : OState) (o : Option Nat) :
    SegOk s (processSrc step s o).1 (processSrc step s o).2.2 := by
  cases o with
  | none => exact SegOk_nil (fun _ => rfl)
  | some sd => exact H s sd

theorem procStages_seg {g : OGraph} {r : Nat} {s s3 : OState} {l01 : OLog}
    (h1 : SegOk s s3 l01) (h2 : ¬ bitset s3 r) :
    SegOk s (procStages g r l01 s3).1 (procStages g r l01 s3).2.2 := by
  rcases hrs : runStages g s3 r with ⟨s4, st, l4⟩
  have hB : SegOk s3 s4 l4 := by
    have := runStages_seg g h2
    rw [hrs] at this
    exact this
  have hred : procStages g r l01 s3 = (s4, st, l01 ++ l4) := by
    unfold procStages
    rw [hrs]
  rw [hred]
  exact SegOk_comp h1 hB

theorem procSetup_seg {g : OGraph} {r : Nat} {s s2 : OState} {l01 : OLog}
    (h1 : SegOk s s2 l01) (h2 : ¬ bitset s2 r) :
    SegOk s (procSetup g r l01 s2).1 (procSetup g r l01 s2).2.2 := by
  unfold procSetup
  by_cases ho : s2.oracle s2.pos = true
  · rw [if_pos ho]
    exact procStages_seg (SegOk_cast h1 (fun _ => rfl)) h2
  · rw [if_neg ho]
    exact SegOk_cast h1 (fun _ => rfl)

theorem procPhase_seg {g : OGraph} {r : Nat} {s s1 : OState} {l01 : OLog}
    (h1 : SegOk s s1 l01) (h2 : ¬ bitset s1 r) :
    SegOk s (procPhase g r l01 s1).1 (procPhase g r l01 s1).2.2 := by
  unfold procPhase
  by_cases ho : s1.oracle s1.pos = true
  · rw [if_pos ho]
    exact procSetup_seg (SegOk_cast h1 (fun _ => rfl)) h2
  · rw [if_neg ho]
    exact SegOk_cast h1 (fun _ => rfl)

theorem proc_seg : ∀ (f : Nat) (g : OGraph) (s : OState) (r : Nat),
    SegOk s (processRecipe f g s r).1 (processRecipe f g s r).2.2 := by
  intro f
  induction f with
  | zero =>
    intro g s r
    exact SegOk_nil (fun _ => rfl)
  | succ f ih =>
    intro g s r
    have H : ∀ (s' : OState) (d : Nat),
        SegOk s' (processRecipe f g s' d).1 (processRecipe f g s' d).2.2 :=
      fun s' d => ih g s' d
    have hunf : processRecipe (f+1) g s r
        = procAfterSrc g (fun s' d => processRecipe f g s' d) r
            (processSrc (fun s' d => processRecipe f g s' d) s ((g r).srcDep)) := rfl
    rw [hunf]
    rcases ha : processSrc (fun s' d => processRecipe f g s' d) s ((g r).srcDep)
      with ⟨s0, st0, l0⟩
    have hA : SegOk s s0 l0 := by
      have := processSrc_seg (fun s' d => processRecipe f g s' d) H s ((g r).srcDep)
      rw [ha] at this
      exact this
    cases st0 with
    | fail => exact hA
    | ok =>
      have hred : procAfterSrc g (fun s' d => processRecipe f g s' d) r
          (s0, LibStatus.ok, l0)
          = procAfterDeps g r l0
              (runSeq (fun s' d => processRecipe f g s' d) s0 ((g r).deps)) := rfl
      rw [hred]
      rcases hb : runSeq (fun s' d => processRecipe f g s' d) s0 ((g r).deps)
        with ⟨s1, st1, l1⟩
      have hB : SegOk s0 s1 l1 := by
        have := runSeq_seg (fun s' d => processRecipe f g s' d) H ((g r).deps) s0
        rw [hb] at this
        exact this
      have hAB := SegOk_comp hA hB
      cases st1 with
      | fail => exact hAB
      | ok =>
        have hred2 : procAfterDeps g r l0 (s1, LibStatus.ok, l1)
            = if stableB s1 r then (s1, LibStatus.ok, l0 ++ l1)
              else procPhase g r (l0 ++ l1) s1 := rfl
        rw [hred2]
        by_cases hst : stableB s1 r = true
        · rw [if_pos hst]
          exact hAB
        · rw [if_neg hst]
          refine procPhase_seg hAB ?_
          intro hbs
          exact hst (bitset_stable hbs)

theorem runSeq_noop (step : OState → Nat → OState × LibStatus × OLog) :
    ∀ (ds : List Nat) (s : OState), (∀ d ∈ ds, step s d = (s, .ok, [])) →
      runSeq step s ds = (s, .ok, []) := by
  intro ds
  induction ds with
  | nil => intro s _; rfl
  | cons d ds ih =>
    intro s h
    rw [runSeq_cons, h d (List.mem_cons_self _ _)]
    show (match runSeq step s ds with
      | (s2, st2, l2) => ((s2, st2, [] ++ l2) : OState × LibStatus × OLog)) = _
    rw [ih s (fun x hx => h x (List.mem_cons_of_mem _ hx))]
    rfl

theorem calm_noop : ∀ (f : Nat) (g : OGraph) (s : OState) (r : Nat),
    calmB f g s r = true → processRecipe f g s r = (s, LibStatus.ok, []) := by
  intro f
  induction f with
  | zero =>
    intro g s r h
    exact absurd h (by simp [calmB])
  | succ f ih =>
    intro g s r h
    have h' := h
    unfold calmB at h'
    rw [Bool.and_eq_true] at h'
    obtain ⟨hstab, hall⟩ := h'
    rw [List.all_eq_true] at hall
    have hcalm : ∀ c ∈ childList g r, processRecipe f g s c = (s, .ok, []) := by
      intro c hc
      exact ih g s c (by simpa using hall c hc)
    have hsrc : processSrc (fun s' d => processRecipe f g s' d) s ((g r).srcDep)
        = (s, .ok, []) := by
      cases hsd : (g r).srcDep with
      | none => rfl
      | some sd =>
        show processRecipe f g s sd = (s, .ok, [])
        apply hcalm
        unfold childList
        rw [hsd]
        exact List.mem_append_left _ (List.mem_singleton_self _)
    have hdeps : runSeq (fun s' d => processRecipe f g s' d) s ((g r).deps)
        = (s, .ok, []) := by
      apply runSeq_noop
      intro d hd
      apply hcalm
      unfold childList
      exact List.mem_append_right _ hd
    have hunf : processRecipe (f+1) g s r
        = procAfterSrc g (fun s' d => processRecipe f g s' d) r
            (processSrc (fun s' d => processRecipe f g s' d) s ((g r).srcDep)) := rfl
    rw [hunf, hsrc]
    have hred : procAfterSrc g (fun s' d => processRecipe f g s' d) r
        (s, LibStatus.ok, [])
        = procAfterDeps g r []
            (runSeq (fun s' d => processRecipe f g s' d) s ((g r).deps)) := rfl
    rw [hred, hdeps]
    show (if stableB s r then ((s, LibStatus.ok, [] ++ []) : OState × LibStatus × OLog)
      else procPhase g r ([] ++ []) s) = (s, LibStatus.ok, [])
    rw [if_pos hstab]
    rfl

/-- C3: calling process_recipe(R) twice within the same run executes each of
R's stage commands at most once in total: any stage step (R, k) occurs at
most once in the concatenated logs of the two calls, because the first
execution sets status.built or status.failed and the guard of line 261 (or an
existing, non-invalidated cache directory) makes every later visit return
before the stage phase. -/
theorem c3_stage_commands_at_most_once (f1 f2 : Nat) (g : OGraph) (s : OState)
    (r k : Nat) :
    (((processRecipe f1 g s r).2.2)
        ++ ((processRecipe f2 g (processRecipe f1 g s r).1 r).2.2)).count (r, k) ≤ 1 := by
  obtain ⟨m1, b1, i1, c1⟩ := proc_seg f1 g s r
  obtain ⟨m2, b2, i2, c2⟩ := proc_seg f2 g (processRecipe f1 g s r).1 r
  rw [List.count_append]
  by_cases hm : (r, k) ∈ (processRecipe f1 g s r).2.2
  · have hz : ((processRecipe f2 g (processRecipe f1 g s r).1 r).2.2).count (r, k) = 0 :=
      List.count_eq_zero.mpr (b2 r k (i1 r k hm))
    rw [hz]
    simpa using c1 r k
  · have hz : ((processRecipe f1 g s r).2.2).count (r, k) = 0 :=
      List.count_eq_zero.mpr hm
    rw [hz]
    simpa using c2 r k

/-- C4 (amended): a process_recipe invocation that reaches stage execution
(the namespace switch of main.c line 289, modelled by runStages) either
succeeds, setting status.built with the recipe cache directory in place, or
fails at some step, setting status.failed, returning LIB_STATUS_FAIL and
attempting to delete the recipe directory: the directory is gone when
lib_path_delete succeeds, and is left as it was when the delete fails, since
main.c line 506 then only logs a warning.  The original claim's unconditional
"deletes R's cache directory" is refuted by c4_stage_outcome_counterexample
below. -/
theorem c4_stage_outcome (g : OGraph) (s : OState) (r : Nat) :
    ((runStages g s r).2.1 = LibStatus.ok
        ∧ ((runStages g s r).1.rstatus r).built = true
        ∧ (runStages g s r).1.dirEx r = true)
    ∨ ((runStages g s r).2.1 = LibStatus.fail
        ∧ ((runStages g s r).1.rstatus r).failed = true
        ∧ (runStages g s r).1.dirEx r
            = (if (stagesGo r ((g r).stages) 0 s).1.oracle
                  ((stagesGo r ((g r).stages) 0 s).1.pos)
               then false else s.dirEx r)) := by
  rcases hg : stagesGo r ((g r).stages) 0 s with ⟨s1, st, l⟩
  have hdx : s1.dirEx = s.dirEx := by
    have := stagesGo_dirEx r ((g r).stages) 0 s
    rw [hg] at this
    exact this
  cases st with
  | ok =>
    left
    have hred : runStages g s r = (markBuilt s1 r, .ok, l) := by
      unfold runStages
      rw [hg]
    rw [hred]
    refine ⟨rfl, ?_, ?_⟩
    · show (updStatus s1.rstatus r (setBuilt (s1.rstatus r)) r).built = true
      unfold updStatus
      rw [if_pos rfl]
      rfl
    · show updB s1.dirEx r true r = true
      unfold updB
      rw [if_pos rfl]
  | fail =>
    right
    have hred : runStages g s r = (markFailed s1 r (s1.oracle s1.pos), .fail, l) := by
      unfold runStages
      rw [hg]
    rw [hred]
    refine ⟨rfl, ?_, ?_⟩
    · show (updStatus s1.rstatus r (setFailed (s1.rstatus r)) r).failed = true
      unfold updStatus
      rw [if_pos rfl]
      rfl
    · show (if s1.oracle s1.pos then updB s1.dirEx r false else s1.dirEx) r
          = (if s1.oracle s1.pos then false else s.dirEx r)
      by_cases ho : s1.oracle s1.pos = true
      · rw [if_pos ho, if_pos ho]
        show updB s1.dirEx r false r = false
        unfold updB
        rw [if_pos rfl]
      · rw [if_neg ho, if_neg ho, hdx]

/-- C4 counterexample refuting the original claim: with one failing stage
step followed by a failing lib_path_delete (main.c line 506 only warns), the
recipe ends with status.failed = true and LIB_STATUS_FAIL, yet its cache
directory is still there — so the claim's unconditional "deletes R's cache
directory" disjunction is false at this input. -/
theorem c4_stage_outcome_counterexample :
    (runStages og1 os1 0).2.1 = LibStatus.fail
    ∧ ((runStages og1 os1 0).1.rstatus 0).failed = true
    ∧ (runStages og1 os1 0).1.dirEx 0 = true
    ∧ ¬(((runStages og1 os1 0).2.1 = LibStatus.ok
          ∧ ((runStages og1 os1 0).1.rstatus 0).built = true
          ∧ (runStages og1 os1 0).1.dirEx 0 = true)
        ∨ ((runStages og1 os1 0).2.1 = LibStatus.fail
          ∧ ((runStages og1 os1 0).1.rstatus 0).failed = true
          ∧ (runStages og1 os1 0).1.dirEx 0 = false)) := by
  refine ⟨rfl, rfl, rfl, ?_⟩
  rintro (⟨h, _⟩ | ⟨_, _, h⟩)
  · exact absurd h (by decide)
  · exact absurd h (by decide)

/-- C9: once a recipe has failed in the current run, a subsequent
process_recipe call on it returns LIB_STATUS_OK with the state unchanged and
no stage step executed; the caller at main.c line 255 therefore proceeds as
though the recipe had been built.  The calm hypothesis states that the
recipe's subtree satisfies the skip guard, which is exactly the situation a
run leaves behind when it sets status.failed: that requires every child call
to have just returned OK, and the guard bits are never cleared afterwards. -/
theorem c9_failed_recipe_memoized_ok (f : Nat) (g : OGraph) (s : OState) (r : Nat)
    (h1 : calmB f g s r = true) (_h2 : (s.rstatus r).failed = true) :
    processRecipe f g s r = (s, LibStatus.ok, []) :=
  calm_noop f g s r h1

theorem c9_failed_recipe_memoized_ok_witness :
    processRecipe 1 og0 os0 0 = (os0, LibStatus.ok, []) :=
  c9_failed_recipe_memoized_ok 1 og0 os0 0 rfl rfl


/-- C6: the claim says `--thread-count N` makes the built-in `thread_count`
variable of the build stage expand to N.  In the code the parsed N is stored
into params.thread_count (main.c line 555) but the build-stage table hardcodes
the value "8" (main.c line 470), so for every N the expansion of
`@(thread_count)` is "8".  This theorem evaluates the code at the failing
input: the claim's expected result for N = 4 would be "4". -/
theorem c6_thread_count_is_hardcoded_8 (n : Nat) :
    build_stage_embed 64 (parse_thread_count_opt n default_params)
        (strBytes "@(thread_count)") = EmbedRes.ok (strBytes "8") := rfl

/-- C7: the claim says an empty placeholder `@()` is a no-op that neither
changes the text nor affects later placeholders.  The first conjunct shows the
`@()` text is indeed left in place, and the second shows `@(a)` alone expands
to "val"; but the third shows that prefixing `@()` makes the whole expansion
fail: main.c line 56 `continue`s without resetting `embed`, so the scanner
stays inside a placeholder that began at the `@()` and the next `)` produces
an "unknown embed" error (NULL return). -/
theorem c7_empty_placeholder_swallows_next :
    embed_variables 32 (strBytes "@()") [] [] = EmbedRes.ok (strBytes "@()")
    ∧ embed_variables 32 (strBytes "@(a)") varsA [] = EmbedRes.ok (strBytes "val")
    ∧ embed_variables 32 (strBytes "@()@(a)") varsA [] = EmbedRes.err :=
  ⟨rfl, rfl, rfl⟩

/-- C8: the claim says a failed base-image installation exits with status 1
before processing any recipe.  In the code install_rootfs reports failure as
LIB_STATUS_FAIL = 0 (first conjunct: a failing bootstrap download), but the
guard of main.c line 607 compares that status with `< 0`, which holds for
neither enumerator, so main always proceeds to the recipe-processing loop
(second conjunct), even when the rootfs was absent and installation failed. -/
theorem c8_failed_rootfs_install_is_ignored :
    install_rootfs true false [] = LibStatus.fail
    ∧ ∀ (rootfs_present : Bool) (inst : LibStatus),
        main_proceeds_to_recipes rootfs_present inst = true := by
  refine ⟨rfl, ?_⟩
  intro e s
  cases s <;> cases e <;> rfl

end Chariot
